import Mathlib

/-!
Shallow embedding of the TLS (thread-local storage) shim of this repository
(src/src/shims/tls.rs) and proofs about it.

Modelling conventions:
* `TlsKey` is `u128` in the source; we model key arithmetic with `Nat`.
  The source increments `next_key` by one per key creation starting at 1 and
  (for every target with fewer than 128 pointer bits) errors out as soon as a
  key reaches `2 ^ max_size.bits()`, so the 128-bit counter can never wrap in
  any execution that performs fewer than `2 ^ 128` operations; the `Nat`
  model is exact on all such executions.
* `Scalar<Tag>` values are modelled as `Nat`, with `0` playing the role of
  the null pointer (`Scalar::null_ptr`).
* `ty::Instance` (a callable) is modelled as an opaque `Nat` identifier.
* `ThreadId` is modelled as `Nat`.
* `BTreeMap<TlsKey, TlsEntry>` is modelled as an association list sorted by
  key (the `BTreeMap` iteration/range order); the inner per-entry maps, the
  `thread_dtors` map, the `last_dtor_key` map and the `dtors_running` set are
  only ever accessed pointwise, so they are modelled as functions.
* `InterpResult` is modelled as `Except Err _`; since an interpreter error
  aborts interpretation but does not roll back the machine state, every
  mutating operation returns the (possibly mutated) state next to the result.
  Rust panics (`assert!`, `unwrap_none`) are modelled as `Err.panic`.
* The external collaborators (`get_active_thread`, `has_terminated`,
  `enable_thread`, `call_function`, and the path lookups used by the Windows
  path) are modelled through the `Machine` structure: `call_function` appends
  the scheduled callable and its arguments to the `calls` log,
  `enable_thread` appends to the `enabled` log, and the two Windows path
  lookups are environment-provided fields resolved successfully.
-/

/-- Error kinds of the interpreter, as surfaced by this module:
undefined behavior, unsupported configuration, and interpreter panic
(failed assertion). -/
inductive Err where
  | ub
  | unsup
  | panic
deriving DecidableEq

/-- Pointwise insert into a function-modelled map. -/
def insertF {α : Type} (f : Nat → Option α) (k : Nat) (v : α) : Nat → Option α :=
  fun x => if x = k then some v else f x

/-- Pointwise removal from a function-modelled map. -/
def eraseF {α : Type} (f : Nat → Option α) (k : Nat) : Nat → Option α :=
  fun x => if x = k then none else f x

/-- Pointwise insert into a function-modelled set. -/
def insertB (f : Nat → Bool) (k : Nat) : Nat → Bool :=
  fun x => if x = k then true else f x

/-- One entry of the key table (struct TlsEntry in tls.rs): the per-thread
stored data (None represents NULL) and the optional destructor. -/
structure TlsEntry where
  data : Nat → Option Nat
  dtor : Option Nat

/-- The TLS registry state (struct TlsData in tls.rs). -/
structure TlsData where
  next_key : Nat
  keys : List (Nat × TlsEntry)
  thread_dtors : Nat → Option (Nat × Nat)
  dtors_running : Nat → Bool
  last_dtor_key : Nat → Option Nat

/-- Default TlsData (impl Default in tls.rs): next_key starts at 1 because
key 0 must not be used on Windows. -/
def TlsData.default : TlsData :=
  { next_key := 1
    keys := []
    thread_dtors := fun _ => none
    dtors_running := fun _ => false
    last_dtor_key := fun _ => none }

/-- First-match lookup in the key table (BTreeMap::get). -/
def getK : List (Nat × TlsEntry) → Nat → Option TlsEntry
  | [], _ => none
  | (k', e) :: r, k => if k' = k then some e else getK r k

/-- Order-preserving insert into the key table (BTreeMap::insert). -/
def insertK : List (Nat × TlsEntry) → Nat → TlsEntry → List (Nat × TlsEntry)
  | [], k, e => [(k, e)]
  | (k', e') :: r, k, e =>
    if k < k' then (k, e) :: (k', e') :: r
    else if k = k' then (k, e) :: r
    else (k', e') :: insertK r k e

/-- Removal from the key table (BTreeMap::remove). -/
def eraseK : List (Nat × TlsEntry) → Nat → List (Nat × TlsEntry)
  | [], _ => []
  | (k', e') :: r, k => if k' = k then r else (k', e') :: eraseK r k

/-- Entry replacement in the key table (mutation through BTreeMap::get_mut). -/
def setK : List (Nat × TlsEntry) → Nat → TlsEntry → List (Nat × TlsEntry)
  | [], _, _ => []
  | (k', e') :: r, k, e => if k' = k then (k, e) :: r else (k', e') :: setK r k e

/-- TlsData::create_tls_key. Allocates `next_key`, increments the counter,
inserts a fresh empty entry (`unwrap_none` panics if the key already
existed), then errors with the unsupported kind if the new key does not fit
in `max_size` bits. The state mutations happen before the error check. -/
def create_tls_key (s : TlsData) (dtor : Option Nat) (max_size_bits : Nat) :
    Except Err Nat × TlsData :=
  let new_key := s.next_key
  let s1 : TlsData := { s with next_key := s.next_key + 1 }
  let dup := (getK s1.keys new_key).isSome
  let s2 : TlsData := { s1 with keys := insertK s1.keys new_key { data := fun _ => none, dtor := dtor } }
  if dup then (.error .panic, s2)
  else if max_size_bits < 128 ∧ 2 ^ max_size_bits ≤ new_key then (.error .unsup, s2)
  else (.ok new_key, s2)

/-- TlsData::delete_tls_key. Removes the entry; undefined behavior if the
key does not exist. -/
def delete_tls_key (s : TlsData) (key : Nat) : Except Err Unit × TlsData :=
  match getK s.keys key with
  | some _ => (.ok (), { s with keys := eraseK s.keys key })
  | none => (.error .ub, s)

/-- TlsData::load_tls. Reads the thread's value, normalizing an absent value
to the null pointer (modelled as 0); undefined behavior if the key does not
exist. -/
def load_tls (s : TlsData) (key : Nat) (thread_id : Nat) : Except Err Nat :=
  match getK s.keys key with
  | some e => .ok ((e.data thread_id).getD 0)
  | none => .error .ub

/-- TlsData::store_tls. Some inserts/overwrites, None removes the thread's
entry; undefined behavior if the key does not exist. -/
def store_tls (s : TlsData) (key : Nat) (thread_id : Nat) (new_data : Option Nat) :
    Except Err Unit × TlsData :=
  match getK s.keys key with
  | some e =>
    let e' : TlsEntry :=
      match new_data with
      | some scalar => { e with data := insertF e.data thread_id scalar }
      | none => { e with data := eraseF e.data thread_id }
    (.ok (), { s with keys := setK s.keys key e' })
  | none => (.error .ub, s)

/-- TlsData::set_thread_dtor. UB if the thread's destructors are already
running; the insert into thread_dtors happens before the check whether one
was already registered (which yields the unsupported kind). -/
def set_thread_dtor (s : TlsData) (thread : Nat) (dtor : Nat) (data : Nat) :
    Except Err Unit × TlsData :=
  if s.dtors_running thread then (.error .ub, s)
  else
    let prev := s.thread_dtors thread
    let s1 : TlsData := { s with thread_dtors := insertF s.thread_dtors thread (dtor, data) }
    if prev.isSome then (.error .unsup, s1)
    else (.ok (), s1)

/-- Whether a key lies in the range `(Excluded after, Unbounded)` (or
`(Unbounded, Unbounded)` when `after` is absent) used by fetch_tls_dtor. -/
def inRange (after : Option Nat) (k : Nat) : Bool :=
  match after with
  | some a => decide (a < k)
  | none => true

/-- The loop body of TlsData::fetch_tls_dtor over the (sorted) key table:
every key in range is visited in order; a visited occupied entry has the
thread's value removed, and the first such entry with a destructor stops the
scan and is returned. On the sorted lists maintained by the registry the
per-element range guard coincides with the source's BTreeMap range query. -/
def fetchGo (after : Option Nat) (thread_id : Nat) :
    List (Nat × TlsEntry) → Option (Nat × Nat × Nat) × List (Nat × TlsEntry)
  | [] => (none, [])
  | (k, e) :: rest =>
    if inRange after k then
      match e.data thread_id with
      | some data_scalar =>
        let e' : TlsEntry := { e with data := eraseF e.data thread_id }
        match e.dtor with
        | some dtor => (some (dtor, data_scalar, k), (k, e') :: rest)
        | none =>
          let p := fetchGo after thread_id rest
          (p.1, (k, e') :: p.2)
      | none =>
        let p := fetchGo after thread_id rest
        (p.1, (k, e) :: p.2)
    else
      let p := fetchGo after thread_id rest
      (p.1, (k, e) :: p.2)

/-- TlsData::fetch_tls_dtor. Returns a dtor, its argument and its key, if
one is supposed to run; `key` is the last dtor that was run and the scan
resumes strictly after it. -/
def fetch_tls_dtor (s : TlsData) (key : Option Nat) (thread_id : Nat) :
    Option (Nat × Nat × Nat) × TlsData :=
  let p := fetchGo key thread_id s.keys
  (p.1, { s with keys := p.2 })

/-- The interpreter state visible to this module: the TLS registry plus the
external collaborators (active thread, thread liveness, the log of scheduled
function calls, the log of re-enabled threads, and the two Windows-path
symbols resolved from the target's libstd). -/
structure Machine where
  tls : TlsData
  active_thread : Nat
  total_thread_count : Nat
  terminated : Nat → Bool
  calls : List (Nat × List Nat)
  enabled : List Nat
  p_thread_callback : Nat
  dll_process_detach : Nat

/-- schedule_windows_tls_dtors: asserts a single thread, marks the thread's
destructors as running, schedules the libstd thread callback with
(NULL, DLL_PROCESS_DETACH, NULL), and re-enables the thread. -/
def schedule_windows_tls_dtors (m : Machine) : Except Err Unit × Machine :=
  let active_thread := m.active_thread
  if m.total_thread_count = 1 then
    let m1 : Machine :=
      { m with tls := { m.tls with dtors_running := insertB m.tls.dtors_running active_thread } }
    let m2 : Machine :=
      { m1 with calls := m1.calls ++ [(m1.p_thread_callback, [0, m1.dll_process_detach, 0])] }
    (.ok (), { m2 with enabled := m2.enabled ++ [active_thread] })
  else (.error .panic, m)

/-- schedule_macos_tls_dtor: if the active thread has a registered
thread-wide destructor, remove it, schedule it with its data argument, and
re-enable the thread; otherwise do nothing. -/
def schedule_macos_tls_dtor (m : Machine) : Except Err Unit × Machine :=
  let thread_id := m.active_thread
  match m.tls.thread_dtors thread_id with
  | some (inst, data) =>
    let m1 : Machine :=
      { m with tls := { m.tls with thread_dtors := eraseF m.tls.thread_dtors thread_id } }
    let m2 : Machine := { m1 with calls := m1.calls ++ [(inst, [data])] }
    (.ok (), { m2 with enabled := m2.enabled ++ [thread_id] })
  | none => (.ok (), m)

/-- schedule_pthread_tls_dtors: asserts the active thread has terminated,
fetches the next dtor after the thread's resume cursor (retrying once from
the beginning on failure), and either schedules it (recording the cursor,
asserting the value is non-null and re-enabling the thread) or, if both
scans found nothing, clears the cursor and reports the drain complete. -/
def schedule_pthread_tls_dtors (m : Machine) : Except Err Unit × Machine :=
  let active_thread := m.active_thread
  if m.terminated active_thread then
    let last_key := m.tls.last_dtor_key active_thread
    let p1 := fetch_tls_dtor m.tls last_key active_thread
    let p2 :=
      match p1.1 with
      | some d => (some d, p1.2)
      | none => fetch_tls_dtor p1.2 none active_thread
    let m1 : Machine := { m with tls := p2.2 }
    match p2.1 with
    | some (inst, ptr, key) =>
      let m2 : Machine :=
        { m1 with tls := { m1.tls with last_dtor_key := insertF m1.tls.last_dtor_key active_thread key } }
      if ptr = 0 then (.error .panic, m2)
      else
        let m3 : Machine := { m2 with calls := m2.calls ++ [(inst, [ptr])] }
        (.ok (), { m3 with enabled := m3.enabled ++ [active_thread] })
    | none =>
      (.ok (), { m1 with tls := { m1.tls with last_dtor_key := eraseF m1.tls.last_dtor_key active_thread } })
  else (.error .panic, m)

/-- schedule_next_tls_dtor_for_active_thread: the dispatch entry point. On
Windows, run the windows path once, guarded by dtors_running; on every
other target, mark the thread as running destructors, then run the macOS
thread-wide destructor step followed by the pthread drain step. -/
def schedule_next_tls_dtor_for_active_thread (target_os : String) (m : Machine) :
    Except Err Unit × Machine :=
  let active_thread := m.active_thread
  if target_os = "windows" then
    if m.tls.dtors_running active_thread then (.ok (), m)
    else
      let m1 : Machine :=
        { m with tls := { m.tls with dtors_running := insertB m.tls.dtors_running active_thread } }
      schedule_windows_tls_dtors m1
  else
    let m1 : Machine :=
      { m with tls := { m.tls with dtors_running := insertB m.tls.dtors_running active_thread } }
    match schedule_macos_tls_dtor m1 with
    | (.ok _, m2) => schedule_pthread_tls_dtors m2
    | (.error e, m2) => (.error e, m2)

/-- Iterated dispatch: the external scheduler calling the dispatch entry
point once per scheduling step (the machine state persists across an
interpreter error). -/
def iterDispatch (target_os : String) : Nat → Machine → Machine
  | 0, m => m
  | n + 1, m => iterDispatch target_os n (schedule_next_tls_dtor_for_active_thread target_os m).2

/-- The stop key of a fetch result: the key of the invoked destructor, if
any. -/
def stopKey : Option (Nat × Nat × Nat) → Option Nat
  | some x => some x.2.2
  | none => none

/-- Whether a key is at or before the stop key (everything when the scan ran
off the end of the table). -/
def stopOk : Option Nat → Nat → Bool
  | some k0, k => decide (k ≤ k0)
  | none, _ => true

/-- Whether the fetch scan visits the given table entry and consumes the
thread's stored value there: the entry is in range, the thread has a stored
value, and the scan has not already stopped at an earlier key. -/
def consumedB (after : Option Nat) (t : Nat) (stop : Option Nat) (p : Nat × TlsEntry) : Bool :=
  inRange after p.1 && (p.2.data t).isSome && stopOk stop p.1

/-- A table entry with the thread's stored value removed, exactly as the
fetch scan leaves a visited occupied entry. -/
def consumeEntry (t : Nat) (p : Nat × TlsEntry) : Nat × TlsEntry :=
  (p.1, { p.2 with data := eraseF p.2.data t })

/-- A key-table entry holding one pending destructor for thread `t`:
key `x.1`, destructor `x.2.1`, stored value `x.2.2`. -/
def pendingEntry (t : Nat) (x : Nat × Nat × Nat) : Nat × TlsEntry :=
  (x.1, { data := fun th => if th = t then some x.2.2 else none, dtor := some x.2.1 })

/-- The same entry after the drain has consumed the thread's value. -/
def drainedEntry (t : Nat) (x : Nat × Nat × Nat) : Nat × TlsEntry :=
  (x.1, { data := eraseF (fun th => if th = t then some x.2.2 else none) t, dtor := some x.2.1 })

/-- Initial machine for a pthread drain of thread `t`: each element of `ds`
is a key holding a value with a destructor for `t`, `t` has terminated and
is active, no thread-wide destructor is registered, and no destructor has
run yet. -/
def initDrainM (t : Nat) (ds : List (Nat × Nat × Nat)) : Machine :=
  { tls :=
      { next_key := 1
        keys := ds.map (pendingEntry t)
        thread_dtors := fun _ => none
        dtors_running := fun _ => false
        last_dtor_key := fun _ => none }
    active_thread := t
    total_thread_count := 1
    terminated := fun th => decide (th = t)
    calls := []
    enabled := []
    p_thread_callback := 0
    dll_process_detach := 0 }

/-- The registry state after `n` successive key creations (no destructor)
starting from the default state. -/
def createSeq (max_size_bits : Nat) : Nat → TlsData
  | 0 => TlsData.default
  | n + 1 => (create_tls_key (createSeq max_size_bits n) none max_size_bits).2

/-- A key-registry operation: key creation or key deletion. -/
inductive RegOp where
  | create (dtor : Option Nat) (max_size_bits : Nat)
  | delete (key : Nat)

/-- The key values returned by the successful create operations of a
sequence of registry operations, in order, threading the registry state
(also across failed operations, which mutate it too). -/
def createdKeys (s : TlsData) : List RegOp → List Nat
  | [] => []
  | .create d b :: rest =>
    let p := create_tls_key s d b
    match p.1 with
    | .ok k => k :: createdKeys p.2 rest
    | .error _ => createdKeys p.2 rest
  | .delete k :: rest => createdKeys (delete_tls_key s k).2 rest

/-- Concrete machine on a non-Windows target where thread 0 has terminated
with both a registered thread-wide destructor (callable 10, data 5) and a
keyed value (key 1, value 7, destructor 11). -/
def machineBoth : Machine :=
  { tls :=
      { next_key := 2
        keys := [(1, { data := fun th => if th = 0 then some 7 else none, dtor := some 11 })]
        thread_dtors := fun th => if th = 0 then some (10, 5) else none
        dtors_running := fun _ => false
        last_dtor_key := fun _ => none }
    active_thread := 0
    total_thread_count := 1
    terminated := fun th => decide (th = 0)
    calls := []
    enabled := []
    p_thread_callback := 0
    dll_process_detach := 0 }

/-- A second concrete machine of the same shape with distinct identifiers:
thread 3, thread-wide destructor (20, data 6), key 4 holding value 8 with
destructor 21. -/
def machineBoth' : Machine :=
  { tls :=
      { next_key := 5
        keys := [(4, { data := fun th => if th = 3 then some 8 else none, dtor := some 21 })]
        thread_dtors := fun th => if th = 3 then some (20, 6) else none
        dtors_running := fun _ => false
        last_dtor_key := fun _ => none }
    active_thread := 3
    total_thread_count := 1
    terminated := fun th => decide (th = 3)
    calls := []
    enabled := []
    p_thread_callback := 0
    dll_process_detach := 0 }

/-- Concrete registry with a single key 1 whose entry is empty and has no
destructor. -/
def regOneKey : TlsData :=
  { next_key := 2
    keys := [(1, { data := fun _ => none, dtor := none })]
    thread_dtors := fun _ => none
    dtors_running := fun _ => false
    last_dtor_key := fun _ => none }

/-- Concrete registry where thread 0 is in the destructors-running phase. -/
def regRunning : TlsData :=
  { TlsData.default with dtors_running := fun th => decide (th = 0) }

/-- Concrete registry where thread 0 already has a thread-wide destructor
(callable 9, data 4) registered. -/
def regHasDtor : TlsData :=
  { TlsData.default with thread_dtors := fun th => if th = 0 then some (9, 4) else none }

/-- Concrete registry with two keys holding values for thread 0: key 1
(value 5, no destructor) and key 2 (value 7, destructor 11). -/
def regTwoKeys : TlsData :=
  { next_key := 3
    keys :=
      [(1, { data := fun th => if th = 0 then some 5 else none, dtor := none }),
       (2, { data := fun th => if th = 0 then some 7 else none, dtor := some 11 })]
    thread_dtors := fun _ => none
    dtors_running := fun _ => false
    last_dtor_key := fun _ => none }

/-! Helper lemmas about the key-table operations. -/

/-- All three branches of create_tls_key leave the same mutated state:
counter incremented and fresh empty entry inserted at the old counter
value. -/
theorem create_tls_key_state (s : TlsData) (d : Option Nat) (b : Nat) :
    (create_tls_key s d b).2 =
      { s with next_key := s.next_key + 1,
               keys := insertK s.keys s.next_key { data := fun _ => none, dtor := d } } := by
  unfold create_tls_key
  dsimp only
  split <;> [rfl; skip]
  split <;> rfl

/-- Looking up the just-inserted key finds the just-inserted entry. -/
theorem getK_insertK_self (l : List (Nat × TlsEntry)) (k : Nat) (e : TlsEntry) :
    getK (insertK l k e) k = some e := by
  induction l with
  | nil => simp [insertK, getK]
  | cons p r ih =>
    obtain ⟨k', e'⟩ := p
    unfold insertK
    by_cases h1 : k < k'
    · rw [if_pos h1]
      simp [getK]
    · rw [if_neg h1]
      by_cases h2 : k = k'
      · rw [if_pos h2]
        simp [getK]
      · rw [if_neg h2]
        have h2' : ¬ k' = k := fun hh => h2 hh.symm
        simpa [getK, h2'] using ih

/-- Members of the table after an insert are the inserted pair or old
members. -/
theorem insertK_mem (l : List (Nat × TlsEntry)) (k : Nat) (e : TlsEntry) :
    ∀ p ∈ insertK l k e, p = (k, e) ∨ p ∈ l := by
  induction l with
  | nil =>
    intro p hp
    simp [insertK] at hp
    exact Or.inl hp
  | cons q r ih =>
    intro p hp
    obtain ⟨k', e'⟩ := q
    unfold insertK at hp
    by_cases h1 : k < k'
    · rw [if_pos h1] at hp
      rcases List.mem_cons.mp hp with hp | hp
      · exact Or.inl hp
      · exact Or.inr hp
    · rw [if_neg h1] at hp
      by_cases h2 : k = k'
      · rw [if_pos h2] at hp
        rcases List.mem_cons.mp hp with hp | hp
        · exact Or.inl hp
        · exact Or.inr (List.mem_cons_of_mem _ hp)
      · rw [if_neg h2] at hp
        rcases List.mem_cons.mp hp with hp | hp
        · exact Or.inr (hp ▸ List.mem_cons_self _ _)
        · rcases ih p hp with h | h
          · exact Or.inl h
          · exact Or.inr (List.mem_cons_of_mem _ h)

/-- A key matched by no entry of the table is not found. -/
theorem getK_none_of_no_mem (l : List (Nat × TlsEntry)) (k : Nat)
    (h : ∀ p ∈ l, p.1 ≠ k) : getK l k = none := by
  induction l with
  | nil => rfl
  | cons q r ih =>
    obtain ⟨k', e'⟩ := q
    have hk' : k' ≠ k := h (k', e') (by simp)
    simp [getK, hk']
    exact ih (fun p hp => h p (by simp [hp]))

/-- Replacing the entry of an existing key is seen by a subsequent lookup. -/
theorem getK_setK_self (l : List (Nat × TlsEntry)) (k : Nat) (e e' : TlsEntry)
    (h : getK l k = some e) : getK (setK l k e') k = some e' := by
  induction l with
  | nil => simp [getK] at h
  | cons q r ih =>
    obtain ⟨k', e''⟩ := q
    by_cases hk : k' = k
    · simp [setK, hk, getK]
    · simp [getK, hk] at h
      simp [setK, hk, getK]
      exact ih h

/-! Claim theorems. -/

/-- Claim C6: for every key that is absent from the table (deleted or never
created), the key-indexed registry operations delete, load and store all
fail with the undefined-behavior kind. (create_tls_key takes no key
argument, so it cannot be applied to a key at all.) -/
theorem C6_missing_key_ub (s : TlsData) (k t : Nat) (nd : Option Nat)
    (h : getK s.keys k = none) :
    (delete_tls_key s k).1 = .error .ub ∧
    load_tls s k t = .error .ub ∧
    (store_tls s k t nd).1 = .error .ub := by
  refine ⟨?_, ?_, ?_⟩ <;> simp [delete_tls_key, load_tls, store_tls, h]

/-- Witness for C6 at the empty default registry and key 1. -/
theorem C6_missing_key_ub_witness :
    (delete_tls_key TlsData.default 1).1 = .error .ub ∧
    load_tls TlsData.default 1 0 = .error .ub ∧
    (store_tls TlsData.default 1 0 (some 5)).1 = .error .ub :=
  C6_missing_key_ub TlsData.default 1 0 (some 5) rfl

/-- Claim C7: set_thread_dtor fails with the undefined-behavior kind when
the thread is already in dtors_running; otherwise it fails with the
unsupported kind when a thread-wide destructor is already registered;
otherwise it registers the destructor and succeeds. -/
theorem C7_set_thread_dtor_spec (s : TlsData) (t d v : Nat) :
    (s.dtors_running t = true → set_thread_dtor s t d v = (.error .ub, s)) ∧
    (s.dtors_running t = false → (s.thread_dtors t).isSome = true →
      (set_thread_dtor s t d v).1 = .error .unsup) ∧
    (s.dtors_running t = false → s.thread_dtors t = none →
      (set_thread_dtor s t d v).1 = .ok () ∧
      (set_thread_dtor s t d v).2.thread_dtors t = some (d, v)) := by
  refine ⟨?_, ?_, ?_⟩
  · intro h
    simp [set_thread_dtor, h]
  · intro h1 h2
    simp [set_thread_dtor, h1, h2]
  · intro h1 h2
    simp [set_thread_dtor, h1, h2, insertF]

/-- Witness for C7: all three branches at concrete registries. -/
theorem C7_set_thread_dtor_spec_witness :
    set_thread_dtor regRunning 0 9 4 = (.error .ub, regRunning) ∧
    (set_thread_dtor regHasDtor 0 9 4).1 = .error .unsup ∧
    ((set_thread_dtor TlsData.default 0 9 4).1 = .ok () ∧
      (set_thread_dtor TlsData.default 0 9 4).2.thread_dtors 0 = some (9, 4)) :=
  ⟨(C7_set_thread_dtor_spec regRunning 0 9 4).1 rfl,
   (C7_set_thread_dtor_spec regHasDtor 0 9 4).2.1 rfl rfl,
   (C7_set_thread_dtor_spec TlsData.default 0 9 4).2.2 rfl rfl⟩

/-- Claim C9: for an existing key, storing Some v and loading returns v,
storing None and loading returns the null pointer, and loading a key the
thread never stored to returns the null pointer successfully. -/
theorem C9_roundtrip (s : TlsData) (k t v : Nat) (e : TlsEntry)
    (he : getK s.keys k = some e) :
    load_tls (store_tls s k t (some v)).2 k t = .ok v ∧
    load_tls (store_tls s k t none).2 k t = .ok 0 ∧
    (e.data t = none → load_tls s k t = .ok 0) := by
  refine ⟨?_, ?_, ?_⟩
  · simp only [store_tls, he]
    simp [load_tls, getK_setK_self s.keys k e _ he, insertF]
  · simp only [store_tls, he]
    simp [load_tls, getK_setK_self s.keys k e _ he, eraseF]
  · intro h
    simp [load_tls, he, h]

/-- Witness for C9 at a concrete one-key registry, thread 0, value 5. -/
theorem C9_roundtrip_witness :
    load_tls (store_tls regOneKey 1 0 (some 5)).2 1 0 = .ok 5 ∧
    load_tls (store_tls regOneKey 1 0 none).2 1 0 = .ok 0 ∧
    load_tls regOneKey 1 0 = .ok 0 :=
  ⟨(C9_roundtrip regOneKey 1 0 5 _ rfl).1,
   (C9_roundtrip regOneKey 1 0 5 _ rfl).2.1,
   (C9_roundtrip regOneKey 1 0 5 _ rfl).2.2 rfl⟩

/-- Claim C10: when create_tls_key fails with the key-space-exhaustion
(unsupported) error, the registry has nevertheless been mutated: the
counter was incremented and the fresh empty entry was inserted at the
allocated key. -/
theorem C10_nonatomic_failure (s : TlsData) (d : Option Nat) (b : Nat)
    (_h : (create_tls_key s d b).1 = .error .unsup) :
    (create_tls_key s d b).2.next_key = s.next_key + 1 ∧
    getK (create_tls_key s d b).2.keys s.next_key =
      some { data := fun _ => none, dtor := d } := by
  rw [create_tls_key_state]
  exact ⟨rfl, getK_insertK_self s.keys s.next_key _⟩

/-- Witness for C10: with zero key bits the very first creation fails with
the unsupported kind, yet the counter moved to 2 and key 1 exists. -/
theorem C10_nonatomic_failure_witness :
    (create_tls_key TlsData.default none 0).2.next_key = 2 ∧
    getK (create_tls_key TlsData.default none 0).2.keys 1 =
      some { data := fun _ => none, dtor := none } :=
  C10_nonatomic_failure TlsData.default none 0 rfl

/-- The counter after n successive creations from the default state. -/
theorem createSeq_next_key (b n : Nat) : (createSeq b n).next_key = n + 1 := by
  induction n with
  | zero => rfl
  | succ n ih =>
    show (create_tls_key (createSeq b n) none b).2.next_key = n + 1 + 1
    rw [create_tls_key_state]
    simpa using ih

/-- All keys after n successive creations are at most n. -/
theorem createSeq_keys_le (b n : Nat) : ∀ p ∈ (createSeq b n).keys, p.1 ≤ n := by
  induction n with
  | zero =>
    intro p hp
    simp [createSeq, TlsData.default] at hp
  | succ n ih =>
    intro p hp
    have hk : (createSeq b (n + 1)).keys
        = insertK (createSeq b n).keys (createSeq b n).next_key
            { data := fun _ => none, dtor := none } := by
      show (create_tls_key (createSeq b n) none b).2.keys = _
      rw [create_tls_key_state]
    rw [hk] at hp
    rcases insertK_mem _ _ _ p hp with h | h
    · rw [h]
      simp [createSeq_next_key]
    · exact Nat.le_succ_of_le (ih p h)

/-- A successful key creation returns the pre-state counter. -/
theorem create_tls_key_ok (s : TlsData) (d : Option Nat) (b : Nat) (k : Nat)
    (h : (create_tls_key s d b).1 = .ok k) : k = s.next_key := by
  unfold create_tls_key at h
  dsimp only at h
  split at h
  · simp at h
  · split at h
    · simp at h
    · simp at h
      exact h.symm

/-- Deletion never changes the counter. -/
theorem delete_tls_key_next_key (s : TlsData) (k : Nat) :
    (delete_tls_key s k).2.next_key = s.next_key := by
  unfold delete_tls_key
  split <;> rfl

/-- Claim C5: creating keys one after another from the default state, with a
target integer width below 128 bits, succeeds while the allocated key value
is below 2 ^ max_key_bits and fails with the unsupported kind exactly when
the allocated key value reaches 2 ^ max_key_bits (the (n+1)-st creation
allocates key value n+1). -/
theorem C5_exhaustion_boundary (b n : Nat) (hb : b < 128) :
    (createSeq b n).next_key = n + 1 ∧
    (n + 1 < 2 ^ b → (create_tls_key (createSeq b n) none b).1 = .ok (n + 1)) ∧
    (n + 1 = 2 ^ b → (create_tls_key (createSeq b n) none b).1 = .error .unsup) := by
  have hnk := createSeq_next_key b n
  have hdup : getK (createSeq b n).keys (createSeq b n).next_key = none := by
    apply getK_none_of_no_mem
    intro p hp
    have hle := createSeq_keys_le b n p hp
    omega
  refine ⟨hnk, ?_, ?_⟩
  · intro hlt
    unfold create_tls_key
    dsimp only
    rw [show ({ createSeq b n with next_key := (createSeq b n).next_key + 1 } : TlsData).keys
          = (createSeq b n).keys from rfl, hdup]
    rw [if_neg (by simp)]
    rw [if_neg (fun hc => Nat.lt_irrefl _ (Nat.lt_of_lt_of_le (hnk ▸ hlt) hc.2))]
    simp [hnk]
  · intro heq
    unfold create_tls_key
    dsimp only
    rw [show ({ createSeq b n with next_key := (createSeq b n).next_key + 1 } : TlsData).keys
          = (createSeq b n).keys from rfl, hdup]
    rw [if_neg (by simp)]
    rw [if_pos ⟨hb, by rw [hnk, heq]⟩]

/-- Witness for C5 with 2 key bits: the first creation succeeds with key 1,
and the fourth creation, which allocates key value 4 = 2 ^ 2, fails with
the unsupported kind. -/
theorem C5_exhaustion_boundary_witness :
    (create_tls_key (createSeq 2 0) none 2).1 = .ok 1 ∧
    (create_tls_key (createSeq 2 3) none 2).1 = .error .unsup :=
  ⟨(C5_exhaustion_boundary 2 0 (by decide)).2.1 (by decide),
   (C5_exhaustion_boundary 2 3 (by decide)).2.2 (by decide)⟩

/-- Every key produced by the remaining operations is at least the current
counter. -/
theorem createdKeys_lower_bound (ops : List RegOp) :
    ∀ (s : TlsData), ∀ k ∈ createdKeys s ops, s.next_key ≤ k := by
  induction ops with
  | nil =>
    intro s k hk
    simp [createdKeys] at hk
  | cons op rest ih =>
    intro s k hk
    cases op with
    | create d b =>
      have hnext : (create_tls_key s d b).2.next_key = s.next_key + 1 := by
        rw [create_tls_key_state]
      cases hr : (create_tls_key s d b).1 with
      | ok kk =>
        rw [show createdKeys s (.create d b :: rest)
              = kk :: createdKeys (create_tls_key s d b).2 rest by simp [createdKeys, hr]] at hk
        rcases List.mem_cons.mp hk with h | h
        · rw [h, create_tls_key_ok s d b kk hr]
        · have := ih (create_tls_key s d b).2 k h
          omega
      | error e =>
        rw [show createdKeys s (.create d b :: rest)
              = createdKeys (create_tls_key s d b).2 rest by simp [createdKeys, hr]] at hk
        have := ih (create_tls_key s d b).2 k hk
        omega
    | delete kk =>
      have := ih (delete_tls_key s kk).2 k hk
      rw [delete_tls_key_next_key] at this
      exact this

/-- The created keys of any sequence of operations are strictly ascending. -/
theorem createdKeys_pairwise (ops : List RegOp) :
    ∀ (s : TlsData), (createdKeys s ops).Pairwise (· < ·) := by
  induction ops with
  | nil =>
    intro s
    simp [createdKeys]
  | cons op rest ih =>
    intro s
    cases op with
    | create d b =>
      cases hr : (create_tls_key s d b).1 with
      | ok kk =>
        rw [show createdKeys s (.create d b :: rest)
              = kk :: createdKeys (create_tls_key s d b).2 rest by simp [createdKeys, hr]]
        refine List.Pairwise.cons ?_ (ih _)
        intro a ha
        have h1 := createdKeys_lower_bound rest (create_tls_key s d b).2 a ha
        have h2 : (create_tls_key s d b).2.next_key = s.next_key + 1 := by
          rw [create_tls_key_state]
        have h3 := create_tls_key_ok s d b kk hr
        omega
      | error e =>
        rw [show createdKeys s (.create d b :: rest)
              = createdKeys (create_tls_key s d b).2 rest by simp [createdKeys, hr]]
        exact ih _
    | delete kk => exact ih _

/-- Claim C8: over any sequence of create and delete operations (from any
registry state), the key values returned by successive successful creations
are strictly increasing, and no key value is ever returned twice, deletion
notwithstanding. -/
theorem C8_keys_strictly_increasing (s : TlsData) (ops : List RegOp) :
    (createdKeys s ops).Pairwise (· < ·) ∧ (createdKeys s ops).Nodup :=
  ⟨createdKeys_pairwise ops s, (createdKeys_pairwise ops s).imp Nat.ne_of_lt⟩

/-! Unfolding lemmas for the fetch scan. -/

/-- A key outside the range is passed over untouched. -/
theorem fetchGo_cons_out (after : Option Nat) (t k : Nat) (e : TlsEntry)
    (rest : List (Nat × TlsEntry)) (h : inRange after k = false) :
    fetchGo after t ((k, e) :: rest)
      = ((fetchGo after t rest).1, (k, e) :: (fetchGo after t rest).2) := by
  simp [fetchGo, h]

/-- A visited key at which the thread stores nothing is left untouched and
the scan continues. -/
theorem fetchGo_cons_vacant (after : Option Nat) (t k : Nat) (e : TlsEntry)
    (rest : List (Nat × TlsEntry)) (h1 : inRange after k = true) (h2 : e.data t = none) :
    fetchGo after t ((k, e) :: rest)
      = ((fetchGo after t rest).1, (k, e) :: (fetchGo after t rest).2) := by
  simp [fetchGo, h1, h2]

/-- A visited occupied key with a destructor stops the scan: the value is
consumed and the triple is returned. -/
theorem fetchGo_cons_hit (after : Option Nat) (t k : Nat) (e : TlsEntry)
    (rest : List (Nat × TlsEntry)) (v d : Nat) (h1 : inRange after k = true)
    (h2 : e.data t = some v) (h3 : e.dtor = some d) :
    fetchGo after t ((k, e) :: rest)
      = (some (d, v, k), (k, { e with data := eraseF e.data t }) :: rest) := by
  simp [fetchGo, h1, h2, h3]

/-- A visited occupied key without a destructor has its value consumed and
the scan continues. -/
theorem fetchGo_cons_nodtor (after : Option Nat) (t k : Nat) (e : TlsEntry)
    (rest : List (Nat × TlsEntry)) (v : Nat) (h1 : inRange after k = true)
    (h2 : e.data t = some v) (h3 : e.dtor = none) :
    fetchGo after t ((k, e) :: rest)
      = ((fetchGo after t rest).1,
         (k, { e with data := eraseF e.data t }) :: (fetchGo after t rest).2) := by
  simp [fetchGo, h1, h2, h3]

/-- Mapping a function that fixes every member is the identity. -/
theorem map_id_of_fixed {α : Type} (l : List α) (f : α → α) (h : ∀ a ∈ l, f a = a) :
    l.map f = l := by
  induction l with
  | nil => rfl
  | cons a r ih =>
    simp only [List.map_cons]
    rw [h a (by simp), ih (fun b hb => h b (by simp [hb]))]

/-- Full characterization of one fetch scan over a sorted key table:
(1) the table afterwards equals the original with the thread's value
consumed exactly at the in-range keys up to and including the stop key;
(2) a returned triple is the destructor, stored value and key of the least
in-range key holding both a value and a destructor;
(3) nothing is returned exactly when no in-range key holds both. -/
theorem fetchGo_characterization (after : Option Nat) (t : Nat) :
    ∀ (l : List (Nat × TlsEntry)), l.Pairwise (fun p q => p.1 < q.1) →
    ((fetchGo after t l).2
      = l.map (fun p =>
          if consumedB after t (stopKey (fetchGo after t l).1) p then consumeEntry t p else p)) ∧
    (∀ d v k, (fetchGo after t l).1 = some (d, v, k) →
      ∃ e, (k, e) ∈ l ∧ e.dtor = some d ∧ e.data t = some v ∧ inRange after k = true ∧
        ∀ p ∈ l, inRange after p.1 = true → (p.2.data t).isSome = true →
          p.2.dtor.isSome = true → k ≤ p.1) ∧
    ((fetchGo after t l).1 = none →
      ∀ p ∈ l, ¬(inRange after p.1 = true ∧ (p.2.data t).isSome = true ∧
        p.2.dtor.isSome = true)) := by
  intro l
  induction l with
  | nil =>
    intro _
    refine ⟨rfl, ?_, ?_⟩
    · intro d v k h
      simp [fetchGo] at h
    · intro _ p hp
      simp at hp
  | cons q rest ih =>
    intro hsort
    obtain ⟨k, e⟩ := q
    have hlt : ∀ p ∈ rest, k < p.1 := (List.pairwise_cons.mp hsort).1
    obtain ⟨IH1, IH2, IH3⟩ := ih (List.pairwise_cons.mp hsort).2
    by_cases hR : inRange after k = true
    · cases hd : e.data t with
      | none =>
        rw [fetchGo_cons_vacant after t k e rest hR hd]
        refine ⟨?_, ?_, ?_⟩
        · simp only [List.map_cons]
          rw [show (if consumedB after t (stopKey (fetchGo after t rest).1) (k, e)
                then consumeEntry t (k, e) else (k, e)) = (k, e) by
              simp [consumedB, hd]]
          exact congrArg _ IH1
        · intro d v k' h
          obtain ⟨e0, hmem, he1, he2, he3, hmin⟩ := IH2 d v k' h
          refine ⟨e0, List.mem_cons_of_mem _ hmem, he1, he2, he3, ?_⟩
          intro p hp hp1 hp2 hp3
          rcases List.mem_cons.mp hp with hp | hp
          · rw [hp] at hp2
            simp [hd] at hp2
          · exact hmin p hp hp1 hp2 hp3
        · intro h p hp
          rcases List.mem_cons.mp hp with hp | hp
          · rw [hp]
            intro hc
            simp [hd] at hc
          · exact IH3 h p hp
      | some v0 =>
        cases hdt : e.dtor with
        | some d0 =>
          rw [fetchGo_cons_hit after t k e rest v0 d0 hR hd hdt]
          refine ⟨?_, ?_, ?_⟩
          · simp only [List.map_cons, stopKey]
            rw [show (if consumedB after t (some k) (k, e)
                  then consumeEntry t (k, e) else (k, e))
                = (k, { e with data := eraseF e.data t }) by
                simp [consumedB, hd, hR, stopOk, consumeEntry]]
            rw [map_id_of_fixed rest _ ?_]
            intro p hp
            have hso : stopOk (some k) p.1 = false := by
              simp [stopOk, Nat.not_le.mpr (hlt p hp)]
            rw [if_neg (by simp [consumedB, hso])]
          · intro d v k' h
            simp only [Option.some.injEq, Prod.mk.injEq] at h
            obtain ⟨hd', hv', hk'⟩ := h
            refine ⟨e, ?_, ?_, ?_, ?_, ?_⟩
            · rw [← hk']
              exact List.mem_cons_self _ _
            · rw [hdt, hd']
            · rw [hd, hv']
            · rw [← hk']
              exact hR
            · intro p hp _ _ _
              rcases List.mem_cons.mp hp with hp | hp
              · rw [hp, ← hk']
              · rw [← hk']
                exact Nat.le_of_lt (hlt p hp)
          · intro h
            simp at h
        | none =>
          rw [fetchGo_cons_nodtor after t k e rest v0 hR hd hdt]
          refine ⟨?_, ?_, ?_⟩
          · simp only [List.map_cons]
            rw [show (if consumedB after t (stopKey (fetchGo after t rest).1) (k, e)
                  then consumeEntry t (k, e) else (k, e))
                = (k, { e with data := eraseF e.data t }) by
                rw [if_pos]
                · rfl
                · simp only [consumedB, Bool.and_eq_true]
                  refine ⟨⟨hR, by simp [hd]⟩, ?_⟩
                  cases hres : (fetchGo after t rest).1 with
                  | none => simp [stopKey, stopOk]
                  | some x =>
                    obtain ⟨e0, hmem, _, _, _, _⟩ := IH2 x.1 x.2.1 x.2.2 (by
                      rw [hres])
                    simp only [stopKey, stopOk]
                    exact decide_eq_true (Nat.le_of_lt (hlt _ hmem))]
            exact congrArg _ IH1
          · intro d v k' h
            obtain ⟨e0, hmem, he1, he2, he3, hmin⟩ := IH2 d v k' h
            refine ⟨e0, List.mem_cons_of_mem _ hmem, he1, he2, he3, ?_⟩
            intro p hp hp1 hp2 hp3
            rcases List.mem_cons.mp hp with hp | hp
            · rw [hp] at hp3
              simp [hdt] at hp3
            · exact hmin p hp hp1 hp2 hp3
          · intro h p hp
            rcases List.mem_cons.mp hp with hp | hp
            · rw [hp]
              intro hc
              simp [hdt] at hc
            · exact IH3 h p hp
    · have hR' : inRange after k = false := by
        cases hv : inRange after k
        · rfl
        · exact absurd hv hR
      rw [fetchGo_cons_out after t k e rest hR']
      refine ⟨?_, ?_, ?_⟩
      · simp only [List.map_cons]
        rw [show (if consumedB after t (stopKey (fetchGo after t rest).1) (k, e)
              then consumeEntry t (k, e) else (k, e)) = (k, e) by
            simp [consumedB, hR']]
        exact congrArg _ IH1
      · intro d v k' h
        obtain ⟨e0, hmem, he1, he2, he3, hmin⟩ := IH2 d v k' h
        refine ⟨e0, List.mem_cons_of_mem _ hmem, he1, he2, he3, ?_⟩
        intro p hp hp1 hp2 hp3
        rcases List.mem_cons.mp hp with hp | hp
        · rw [hp] at hp1
          rw [hR'] at hp1
          exact absurd hp1 (by simp)
        · exact hmin p hp hp1 hp2 hp3
      · intro h p hp
        rcases List.mem_cons.mp hp with hp | hp
        · rw [hp]
          intro hc
          rw [hR'] at hc
          exact absurd hc.1 (by simp)
        · exact IH3 h p hp

/-- Claim C4: fetch_tls_dtor scans the sorted key table in ascending order
strictly after `after` (from the start when absent), consumes the thread's
stored value at every visited key that has one (also at keys without a
destructor, where the scan continues), returns the (destructor, removed
value, key) triple of the least in-range key holding both a stored value
and a destructor, and returns nothing exactly when no in-range key holds
both. -/
theorem C4_fetch_characterization (s : TlsData) (after : Option Nat) (t : Nat)
    (hsort : s.keys.Pairwise (fun p q => p.1 < q.1)) :
    ((fetch_tls_dtor s after t).2.keys
      = s.keys.map (fun p =>
          if consumedB after t (stopKey (fetch_tls_dtor s after t).1) p
          then consumeEntry t p else p)) ∧
    (∀ d v k, (fetch_tls_dtor s after t).1 = some (d, v, k) →
      ∃ e, (k, e) ∈ s.keys ∧ e.dtor = some d ∧ e.data t = some v ∧
        inRange after k = true ∧
        ∀ p ∈ s.keys, inRange after p.1 = true → (p.2.data t).isSome = true →
          p.2.dtor.isSome = true → k ≤ p.1) ∧
    ((fetch_tls_dtor s after t).1 = none →
      ∀ p ∈ s.keys, ¬(inRange after p.1 = true ∧ (p.2.data t).isSome = true ∧
        p.2.dtor.isSome = true)) :=
  fetchGo_characterization after t s.keys hsort

/-- Witness for C4 at a two-key table: the scan from the beginning passes
the destructor-less key 1 and returns key 2's destructor, value and key,
which is the least in-range invokable key. -/
theorem C4_fetch_characterization_witness :
    ∃ e, (2, e) ∈ regTwoKeys.keys ∧ e.dtor = some 11 ∧ e.data 0 = some 7 ∧
      inRange none 2 = true ∧
      ∀ p ∈ regTwoKeys.keys, inRange none p.1 = true → (p.2.data 0).isSome = true →
        p.2.dtor.isSome = true → 2 ≤ p.1 :=
  (C4_fetch_characterization regTwoKeys none 0
    (by simp [regTwoKeys, List.pairwise_cons])).2.1 11 7 2 rfl

/-- Claim C1 evaluation: on a non-Windows target where the active terminated
thread has both a registered thread-wide destructor and a keyed value with
a destructor, a single call to the dispatch entry point schedules TWO
invocations through the external call mechanism (the thread-wide destructor
and a keyed destructor), returning successfully — not at most one. -/
theorem C1_double_schedule :
    (schedule_next_tls_dtor_for_active_thread "macos" machineBoth).1 = .ok () ∧
    (schedule_next_tls_dtor_for_active_thread "macos" machineBoth).2.calls
      = [(10, [5]), (11, [7])] := by
  constructor <;> rfl

/-- Claim C2 evaluation: in the very same single dispatch call the keyed
destructor (callable 21) is scheduled right after the thread-wide
destructor (callable 20) — before the thread-wide destructor can possibly
have run — and the keyed slot's value has already been removed from the
table within that call. -/
theorem C2_keyed_before_threadwide :
    (schedule_next_tls_dtor_for_active_thread "macos" machineBoth').2.calls
      = [(20, [6]), (21, [8])] ∧
    (schedule_next_tls_dtor_for_active_thread "macos" machineBoth').2.tls.keys.map
        (fun p => (p.1, p.2.data 3, p.2.dtor))
      = [(4, none, some 21)] := by
  constructor <;> rfl

/-- A table in which the thread stores nothing anywhere is scanned to the
end with no result and left unchanged. -/
theorem fetchGo_novalue (after : Option Nat) (t : Nat) (l : List (Nat × TlsEntry))
    (h : ∀ p ∈ l, p.2.data t = none) :
    fetchGo after t l = (none, l) := by
  induction l with
  | nil => rfl
  | cons q r ih =>
    obtain ⟨k, e⟩ := q
    have hd : e.data t = none := h (k, e) (by simp)
    have ih' := ih (fun p hp => h p (by simp [hp]))
    cases hR : inRange after k with
    | true => rw [fetchGo_cons_vacant after t k e r hR hd, ih']
    | false => rw [fetchGo_cons_out after t k e r hR, ih']

/-- A prefix in which the thread stores nothing is passed over unchanged by
the scan. -/
theorem fetchGo_skip (after : Option Nat) (t : Nat) (pre l : List (Nat × TlsEntry))
    (hpre : ∀ p ∈ pre, p.2.data t = none) :
    fetchGo after t (pre ++ l) = ((fetchGo after t l).1, pre ++ (fetchGo after t l).2) := by
  induction pre with
  | nil => simp
  | cons q r ih =>
    obtain ⟨k, e⟩ := q
    have hd : e.data t = none := hpre (k, e) (by simp)
    have ih' := ih (fun p hp => hpre p (by simp [hp]))
    cases hR : inRange after k with
    | true =>
      rw [List.cons_append, fetchGo_cons_vacant after t k e (r ++ l) hR hd, ih']
      simp
    | false =>
      rw [List.cons_append, fetchGo_cons_out after t k e (r ++ l) hR, ih']
      simp

/-- One dispatch step of a pthread drain in progress: with no thread-wide
destructor, a consumed prefix and the next pending key in range of the
cursor, the dispatch entry point schedules exactly that key's destructor,
consumes its value, records the cursor and re-enables the thread. -/
theorem drain_step (os : String) (hos : ¬ os = "windows") (t : Nat)
    (x : Nat × Nat × Nat) (rest : List (Nat × Nat × Nat)) (m : Machine)
    (pre : List (Nat × TlsEntry))
    (hact : m.active_thread = t)
    (hterm : m.terminated t = true)
    (hmac : m.tls.thread_dtors t = none)
    (hpre : ∀ p ∈ pre, p.2.data t = none)
    (hkeys : m.tls.keys = pre ++ pendingEntry t x :: rest.map (pendingEntry t))
    (hcur : inRange (m.tls.last_dtor_key t) x.1 = true)
    (hv : x.2.2 ≠ 0) :
    schedule_next_tls_dtor_for_active_thread os m =
      (.ok (), { m with
        tls := { m.tls with
          dtors_running := insertB m.tls.dtors_running t
          keys := pre ++ drainedEntry t x :: rest.map (pendingEntry t)
          last_dtor_key := insertF m.tls.last_dtor_key t x.1 }
        calls := m.calls ++ [(x.2.1, [x.2.2])]
        enabled := m.enabled ++ [t] }) := by
  subst hact
  have hfetch : fetchGo (m.tls.last_dtor_key m.active_thread) m.active_thread m.tls.keys
      = (some (x.2.1, x.2.2, x.1),
         pre ++ drainedEntry m.active_thread x :: rest.map (pendingEntry m.active_thread)) := by
    rw [hkeys, fetchGo_skip _ _ _ _ hpre]
    simp only [pendingEntry]
    rw [fetchGo_cons_hit (m.tls.last_dtor_key m.active_thread) m.active_thread x.1
          { data := fun th => if th = m.active_thread then some x.2.2 else none,
            dtor := some x.2.1 }
          (rest.map (pendingEntry m.active_thread)) x.2.2 x.2.1 hcur (by simp) rfl]
    simp [drainedEntry, eraseF, pendingEntry]
  simp only [schedule_next_tls_dtor_for_active_thread]
  rw [if_neg hos]
  simp only [schedule_macos_tls_dtor, hmac]
  simp only [schedule_pthread_tls_dtors, fetch_tls_dtor, hterm, if_true, hfetch]
  simp [hv]

/-- The terminal dispatch step: with no thread-wide destructor and no stored
value anywhere for the active thread, the dispatch entry point schedules
nothing and clears the thread's resume cursor. -/
theorem drain_terminal (os : String) (hos : ¬ os = "windows") (m : Machine)
    (hterm : m.terminated m.active_thread = true)
    (hmac : m.tls.thread_dtors m.active_thread = none)
    (hall : ∀ p ∈ m.tls.keys, p.2.data m.active_thread = none) :
    schedule_next_tls_dtor_for_active_thread os m =
      (.ok (), { m with tls := { m.tls with
        dtors_running := insertB m.tls.dtors_running m.active_thread
        last_dtor_key := eraseF m.tls.last_dtor_key m.active_thread } }) := by
  have hf := fetchGo_novalue (m.tls.last_dtor_key m.active_thread) m.active_thread m.tls.keys hall
  have hf2 := fetchGo_novalue none m.active_thread m.tls.keys hall
  simp only [schedule_next_tls_dtor_for_active_thread]
  rw [if_neg hos]
  simp only [schedule_macos_tls_dtor, hmac]
  simp only [schedule_pthread_tls_dtors, fetch_tls_dtor, hterm, if_true, hf, hf2]

/-- Unfolding of one scheduler step of the iterated dispatch. -/
theorem iterDispatch_succ (os : String) (n : Nat) (m : Machine) :
    iterDispatch os (n + 1) m
      = iterDispatch os n (schedule_next_tls_dtor_for_active_thread os m).2 := rfl

/-- The drain invariant, propagated over the whole drain: with a consumed
prefix and the pending keys ascending and in range of the cursor, running
the dispatch entry point (length pending + 1) times schedules exactly the
pending destructors in order, clears the cursor, and schedules nothing on
the final call. -/
theorem drain_aux (os : String) (hos : ¬ os = "windows") (t : Nat) :
    ∀ (pending : List (Nat × Nat × Nat)) (m : Machine) (pre : List (Nat × TlsEntry)),
    m.active_thread = t →
    m.terminated t = true →
    m.tls.thread_dtors t = none →
    (∀ p ∈ pre, p.2.data t = none) →
    m.tls.keys = pre ++ pending.map (pendingEntry t) →
    (∀ x ∈ pending, inRange (m.tls.last_dtor_key t) x.1 = true) →
    List.Pairwise (fun a b : Nat × Nat × Nat => a.1 < b.1) pending →
    (∀ x ∈ pending, x.2.2 ≠ 0) →
    (iterDispatch os (pending.length + 1) m).calls
        = m.calls ++ pending.map (fun x => (x.2.1, [x.2.2])) ∧
    (iterDispatch os (pending.length + 1) m).tls.last_dtor_key t = none ∧
    (iterDispatch os (pending.length + 1) m).calls
        = (iterDispatch os pending.length m).calls := by
  intro pending
  induction pending with
  | nil =>
    intro m pre hact hterm hmac hpre hkeys _hcur _hsort _hv
    have hterm' : m.terminated m.active_thread = true := by rw [hact]; exact hterm
    have hmac' : m.tls.thread_dtors m.active_thread = none := by rw [hact]; exact hmac
    have hall : ∀ p ∈ m.tls.keys, p.2.data m.active_thread = none := by
      intro p hp
      rw [hkeys] at hp
      simp only [List.map_nil, List.append_nil] at hp
      rw [hact]
      exact hpre p hp
    have hstep := drain_terminal os hos m hterm' hmac' hall
    have hstep2 : (schedule_next_tls_dtor_for_active_thread os m).2
        = { m with tls := { m.tls with
            dtors_running := insertB m.tls.dtors_running m.active_thread
            last_dtor_key := eraseF m.tls.last_dtor_key m.active_thread } } := by
      rw [hstep]
    simp only [List.length_nil, List.map_nil]
    rw [iterDispatch_succ, hstep2]
    refine ⟨?_, ?_, ?_⟩
    · simp [iterDispatch]
    · simp [iterDispatch, eraseF, hact]
    · simp [iterDispatch]
  | cons x rest ih =>
    intro m pre hact hterm hmac hpre hkeys hcur hsort hv
    have hstep := drain_step os hos t x rest m pre hact hterm hmac hpre
        (by rw [hkeys]; simp) (hcur x (by simp)) (hv x (by simp))
    have hstep2 : (schedule_next_tls_dtor_for_active_thread os m).2
        = { m with
            tls := { m.tls with
              dtors_running := insertB m.tls.dtors_running t
              keys := pre ++ drainedEntry t x :: rest.map (pendingEntry t)
              last_dtor_key := insertF m.tls.last_dtor_key t x.1 }
            calls := m.calls ++ [(x.2.1, [x.2.2])]
            enabled := m.enabled ++ [t] } := by
      rw [hstep]
    obtain ⟨IH1, IH2, IH3⟩ :=
      ih { m with
            tls := { m.tls with
              dtors_running := insertB m.tls.dtors_running t
              keys := pre ++ drainedEntry t x :: rest.map (pendingEntry t)
              last_dtor_key := insertF m.tls.last_dtor_key t x.1 }
            calls := m.calls ++ [(x.2.1, [x.2.2])]
            enabled := m.enabled ++ [t] }
        (pre ++ [drainedEntry t x])
        (by simp [hact])
        (by simpa using hterm)
        (by simpa using hmac)
        (by
          intro p hp
          rcases List.mem_append.mp hp with hp | hp
          · exact hpre p hp
          · rw [List.mem_singleton.mp hp]
            simp [drainedEntry, eraseF])
        (by simp)
        (by
          intro y hy
          simp [insertF, inRange]
          exact (List.pairwise_cons.mp hsort).1 y hy)
        ((List.pairwise_cons.mp hsort).2)
        (fun y hy => hv y (List.mem_cons_of_mem _ hy))
    simp only [List.length_cons, List.map_cons]
    rw [iterDispatch_succ, hstep2]
    refine ⟨?_, ?_, ?_⟩
    · rw [IH1]
      simp
    · exact IH2
    · rw [IH3, iterDispatch_succ, hstep2]

/-- Claim C3: for N keys each holding a non-null value with a destructor
for a terminated thread (and destructors that store nothing back — the
state only changes through the dispatch calls themselves), repeatedly
calling the dispatch entry point schedules exactly the N destructors in
ascending key order and then reaches the terminal state with the thread's
resume cursor cleared, the final call scheduling nothing; moreover, in
general, a successful pthread-drain step that schedules nothing (the
terminal report) happens only after the scan resumed from the cursor
returned nothing and the scan restarted from the beginning also returned
nothing. -/
theorem C3_drain_termination (t : Nat) (ds : List (Nat × Nat × Nat))
    (hsort : List.Pairwise (fun a b : Nat × Nat × Nat => a.1 < b.1) ds)
    (hv : ∀ x ∈ ds, x.2.2 ≠ 0) :
    ((iterDispatch "linux" (ds.length + 1) (initDrainM t ds)).calls
        = ds.map (fun x => (x.2.1, [x.2.2])) ∧
      (iterDispatch "linux" (ds.length + 1) (initDrainM t ds)).tls.last_dtor_key t = none ∧
      (iterDispatch "linux" (ds.length + 1) (initDrainM t ds)).calls
        = (iterDispatch "linux" ds.length (initDrainM t ds)).calls) ∧
    (∀ m : Machine, m.terminated m.active_thread = true →
      (schedule_pthread_tls_dtors m).1 = Except.ok () →
      (schedule_pthread_tls_dtors m).2.calls = m.calls →
      (fetch_tls_dtor m.tls (m.tls.last_dtor_key m.active_thread) m.active_thread).1 = none ∧
      (fetch_tls_dtor
          (fetch_tls_dtor m.tls (m.tls.last_dtor_key m.active_thread) m.active_thread).2
          none m.active_thread).1 = none) := by
  constructor
  · have h := drain_aux "linux" (by decide) t ds (initDrainM t ds) []
      rfl (by simp [initDrainM]) rfl (by intro p hp; simp at hp)
      (by simp [initDrainM]) (by intro x hx; simp [initDrainM, inRange]) hsort hv
    simpa [initDrainM] using h
  · intro m hterm h1 h2
    cases hf1 : (fetch_tls_dtor m.tls (m.tls.last_dtor_key m.active_thread) m.active_thread).1 with
    | some d =>
      exfalso
      obtain ⟨inst, ptr, key⟩ := d
      simp only [schedule_pthread_tls_dtors, hterm, if_true, hf1] at h1 h2
      by_cases hptr : ptr = 0
      · rw [if_pos hptr] at h1
        simp at h1
      · rw [if_neg hptr] at h2
        simp at h2
    | none =>
      cases hf2 : (fetch_tls_dtor
          (fetch_tls_dtor m.tls (m.tls.last_dtor_key m.active_thread) m.active_thread).2
          none m.active_thread).1 with
      | some d =>
        exfalso
        obtain ⟨inst, ptr, key⟩ := d
        simp only [schedule_pthread_tls_dtors, hterm, if_true, hf1, hf2] at h1 h2
        by_cases hptr : ptr = 0
        · rw [if_pos hptr] at h1
          simp at h1
        · rw [if_neg hptr] at h2
          simp at h2
      | none => exact ⟨rfl, rfl⟩

/-- Witness for C3 with two keys (1, destructor 10, value 5) and
(2, destructor 11, value 7) for thread 0: three dispatch calls schedule
exactly the two destructors in order and clear the cursor. -/
theorem C3_drain_termination_witness :
    (iterDispatch "linux" 3 (initDrainM 0 [(1, 10, 5), (2, 11, 7)])).calls
        = [(10, [5]), (11, [7])] ∧
    (iterDispatch "linux" 3 (initDrainM 0 [(1, 10, 5), (2, 11, 7)])).tls.last_dtor_key 0
        = none :=
  ⟨(C3_drain_termination 0 [(1, 10, 5), (2, 11, 7)]
      (by simp [List.pairwise_cons]) (by decide)).1.1,
   (C3_drain_termination 0 [(1, 10, 5), (2, 11, 7)]
      (by simp [List.pairwise_cons]) (by decide)).1.2.1⟩
